import Mathlib

/-!
# Verification of the knowsee calendar-digest bot

Shallow embedding of the synchronization and message-lifecycle subsystem:

* `event_trackers.py` — `vdd_to_datetime`, `MDTracker.track_event`,
  `MDTracker.generate_markdown`, `MDTracker.generate_dict`;
* `db.py` — the `tracked_messages` operations of `Database`;
* `main.py` — `BotManager.update_message`, `BotManager.sync_full`,
  the `periodic` driver, `OLD_MESSAGE_CUTOFF`;
* `crawler.py` — `Crawler.process_calendars`.

Modelling conventions:

* Naive `datetime.datetime` values are modelled as natural numbers counting
  seconds; `datetime.date` values as natural numbers counting days, so that
  `.date()` is division by 86400, `datetime.datetime.combine(d, time.min)`
  is `d * 86400`, and `relativedelta(days=1)` is `+ 86400`.  These maps are
  order isomorphisms on the values the program handles.
* Python's `list.sort(key=...)` and `sorted(...)` are stable sorts; any two
  stable sorting algorithms compute the same function, so they are embedded
  as `List.insertionSort` with the non-strict key comparison (which Mathlib
  demonstrates to be stable in exactly Python's sense).
* A Python `dict` built by insertion (`date_maps`) preserves key insertion
  order; it is embedded as an association list with append-at-end insertion.
* `isoformat`/`strftime` string formatting is injective on the values used;
  `generate_dict` is modelled keeping the underlying instants, and the
  `strftime` patterns of `MarkdownFormatConfig` as abstract formatters.
* Exceptions are modelled with `Except`; the external collaborators
  (Telegram platform, network fetch, ical parser) are modelled as oracles
  describing the outcome the collaborator produces during one invocation.
-/

/-- Seconds in one day: granularity of the naive-datetime model. -/
def secondsPerDay : Nat := 86400

/-- `datetime.date()` of a datetime instant: the calendar day containing it. -/
def dateOfInstant (t : Nat) : Nat := t / secondsPerDay

/-! ## event_trackers.py : data model -/

/-- The payload of an `icalendar.vDDDTypes` value: `.dt` is one of
`datetime.datetime`, `datetime.date`, `datetime.timedelta`, `datetime.time`. -/
inductive VDDValue where
  | dateTime (t : Nat)
  | dateOnly (d : Nat)
  | duration (s : Int)
  | timeOfDay (s : Nat)
deriving DecidableEq

/-- An `icalendar.vDDDTypes` property value together with its `VALUE`
parameter (`dtstart.params.get("VALUE")`). -/
structure VDDTypes where
  dt : VDDValue
  valueParam : Option String
deriving DecidableEq

/-- The part of an `icalendar.Event` read by `MDTracker.track_event`:
`DTSTART`, `DTEND` (absent or non-`vDDDTypes` values modelled as `none`)
and `SUMMARY`. -/
structure ICalEvent where
  dtstart : Option VDDTypes
  dtend : Option VDDTypes
  summary : String
deriving DecidableEq

/-- `event_trackers.vdd_to_datetime`: a datetime passes through, a date
becomes midnight of that date (`datetime.combine(dt, time.min)`), a
timedelta or time yields `None`. -/
def vdd_to_datetime : VDDValue → Option Nat
  | .dateTime t => some t
  | .dateOnly d => some (d * secondsPerDay)
  | .duration _ => none
  | .timeOfDay _ => none

/-- `event_trackers.EventMD` (the `end` field is `end_`: `end` is a Lean
keyword). -/
structure EventMD where
  start : Nat
  end_ : Nat
  title : String
  allDay : Bool
deriving DecidableEq

/-- The `TypeError`s raised by `MDTracker.track_event`, by raise site. -/
inductive TrackError where
  | dtstartNotVDD
  | dtendNotVDD
  | dtstartNotDate
  | dtstartNotDateOrTime
  | notBothDateTimes
deriving DecidableEq

/-- `MDTracker.track_event`, as the partial function from one event to the
`EventMD` appended to `self.events`.  The final case mirrors the
`cast(datetime.datetime, ...)` branch: `EventMD` is a `@beartype` dataclass,
so constructing it with non-datetime values raises. -/
def track_event (ev : ICalEvent) : Except TrackError EventMD :=
  match ev.dtstart with
  | none => .error .dtstartNotVDD
  | some dtstart =>
    match ev.dtend with
    | none => .error .dtendNotVDD
    | some dtend =>
      if dtstart.valueParam = some "DATE" then
        match vdd_to_datetime dtstart.dt with
        | none => .error .dtstartNotDate
        | some start =>
          let end_ := match vdd_to_datetime dtend.dt with
            | some e => e
            | none => start + secondsPerDay
          .ok { start := start, end_ := end_, title := ev.summary, allDay := true }
      else if dtstart.valueParam ≠ none then
        .error .dtstartNotDateOrTime
      else
        match dtstart.dt, dtend.dt with
        | .dateTime s, .dateTime e =>
          .ok { start := s, end_ := e, title := ev.summary, allDay := false }
        | _, _ => .error .notBothDateTimes

/-- `EventTracker.track_events` restricted to the tracked list: each event is
tracked in order, the first exception aborting the remainder. -/
def track_events : List ICalEvent → Except TrackError (List EventMD)
  | [] => .ok []
  | ev :: rest =>
    match track_event ev with
    | .error e => .error e
    | .ok md =>
      match track_events rest with
      | .error e => .error e
      | .ok mds => .ok (md :: mds)

/-! ## event_trackers.py : MDTracker.generate_markdown -/

/-- `config.MarkdownFormatConfig`, with the two `strftime` patterns as
abstract formatters. -/
structure MarkdownFormatConfig where
  date_format : Nat → String
  time_format : Nat → String

/-- One step of building `date_maps`: append `e` to the entry of day `d`,
creating the entry at the end if absent (Python dicts keep key insertion
order). -/
def dateMapsInsert (d : Nat) (e : EventMD) :
    List (Nat × List EventMD) → List (Nat × List EventMD)
  | [] => [(d, [e])]
  | (d', es) :: rest =>
    if d' = d then (d', es ++ [e]) :: rest else (d', es) :: dateMapsInsert d e rest

/-- The `date_maps` dict of `generate_markdown`: events partitioned by the
calendar date of their start, in key insertion order. -/
def buildDateMaps (events : List EventMD) : List (Nat × List EventMD) :=
  events.foldl (fun m e => dateMapsInsert (dateOfInstant e.start) e m) []

/-- `timed.sort(key=lambda e: e.start)`: a stable ascending sort on the
start instant. -/
def sortTimed (l : List EventMD) : List EventMD :=
  l.insertionSort (fun a b => a.start ≤ b.start)

/-- `sorted(date_maps.items())`: the date keys are distinct, so sorting the
pairs sorts by date. -/
def sortedDateMaps (events : List EventMD) : List (Nat × List EventMD) :=
  (buildDateMaps events).insertionSort (fun a b => a.1 ≤ b.1)

/-- The date sections of `generate_markdown`: for each date, in ascending
date order, the all-day entries (filter, keeping insertion order) followed by
the timed entries (filter, then stable sort by start).  The emitted markdown
lines are in one-to-one correspondence with this structure. -/
def mdGroups (events : List EventMD) : List (Nat × List EventMD) :=
  (sortedDateMaps events).map fun p =>
    (p.1, p.2.filter (fun e => e.allDay) ++ sortTimed (p.2.filter (fun e => !e.allDay)))

/-- The lines appended to `markdown` for one date section. -/
def mdSectionLines (cfg : MarkdownFormatConfig) (p : Nat × List EventMD) :
    List String :=
  let ds := cfg.date_format p.1
  (s!"**{ds}**" :: p.2.map fun e =>
    if e.allDay then
      let t := e.title
      s!"*All day*: {t}"
    else
      let st := cfg.time_format e.start
      let en := cfg.time_format e.end_
      let t := e.title
      s!"*{st} - {en}*: {t}") ++ [""]

/-- `MDTracker.generate_markdown`. -/
def generate_markdown (cfg : MarkdownFormatConfig) (events : List EventMD) :
    String :=
  String.intercalate "\n" ((mdGroups events).flatMap (mdSectionLines cfg))

/-! ## event_trackers.py : MDTracker.generate_dict -/

/-- One element of the list returned by `generate_dict`.  `isoformat` is
injective on naive datetimes, so the `start`/`end` strings are modelled by
the instants themselves. -/
structure DictEntry where
  title : String
  start : Nat
  end_ : Nat
  allDay : Bool
deriving DecidableEq

/-- The dict built for one event by `generate_dict`. -/
def eventToDict (e : EventMD) : DictEntry :=
  { title := e.title, start := e.start, end_ := e.end_, allDay := e.allDay }

/-- `MDTracker.generate_dict`: the tracked events, in insertion order, each
rendered as a dict. -/
def generate_dict (events : List EventMD) : List DictEntry :=
  events.map eventToDict

/-- The entries `generate_markdown` places under date `d` (`[]` when `d` has
no section). -/
def mdEntriesFor (events : List EventMD) (d : Nat) : List EventMD :=
  match (mdGroups events).find? (fun p => p.1 == d) with
  | some p => p.2
  | none => []

/-! ## db.py : the tracked_messages operations -/

/-- One row of `tracked_messages` (`model.TrackedMsg`); timestamps in the
seconds model.  Row lists are kept in insertion (`AUTOINCREMENT` rowid)
order. -/
structure TrackedMsg where
  chat_id : Int
  message_id : Int
  pinned : Bool
  create_time : Nat
  update_time : Nat
deriving DecidableEq

namespace Database

/-- `Database.add_tracked_message`: `INSERT OR IGNORE` against the
`UNIQUE(chat_id, message_id)` constraint; `create_time` and `update_time`
default to `CURRENT_TIMESTAMP`. -/
def add_tracked_message (rows : List TrackedMsg) (chat mid : Int)
    (pinned : Bool) (now : Nat) : List TrackedMsg :=
  if rows.any (fun r => r.chat_id == chat && r.message_id == mid) then rows
  else rows ++ [{ chat_id := chat, message_id := mid, pinned := pinned,
                  create_time := now, update_time := now }]

/-- `Database.update_message`: set `update_time = CURRENT_TIMESTAMP` on the
matching row. -/
def update_message (rows : List TrackedMsg) (chat mid : Int) (now : Nat) :
    List TrackedMsg :=
  rows.map fun r =>
    if r.chat_id == chat && r.message_id == mid then
      { r with update_time := now }
    else r

/-- `Database.delete_message`: delete the matching row. -/
def delete_message (rows : List TrackedMsg) (chat mid : Int) :
    List TrackedMsg :=
  rows.filter fun r => !(r.chat_id == chat && r.message_id == mid)

/-- One scan step computing the row `ORDER BY create_time DESC LIMIT 1`
returns: keep the row of maximal `create_time` seen so far among the chat's
rows (on ties SQLite leaves the choice open; the scan keeps the first
maximum). -/
def latestStep (chat : Int) (acc : Option TrackedMsg) (r : TrackedMsg) :
    Option TrackedMsg :=
  if r.chat_id == chat then
    match acc with
    | none => some r
    | some m => if r.create_time > m.create_time then some r else acc
  else acc

/-- `Database.get_latest_tracked_message`: `ORDER BY create_time DESC
LIMIT 1` over the chat's rows. -/
def get_latest_tracked_message (rows : List TrackedMsg) (chat : Int) :
    Option TrackedMsg :=
  rows.foldl (latestStep chat) none

end Database

/-! ## main.py : BotManager.update_message -/

/-- `main.OLD_MESSAGE_CUTOFF = datetime.timedelta(days=7)`. -/
def OLD_MESSAGE_CUTOFF : Nat := 7 * secondsPerDay

/-- Outcome of `bot.edit_message_text` during one invocation:
success, `TelegramError` whose message contains "exactly the same"
(content unchanged), or any other failure. -/
inductive EditOutcome where
  | success
  | identicalContent
  | failed
deriving DecidableEq

/-- Outcome of `bot.pin_chat_message` during one invocation. -/
inductive PinOutcome where
  | success
  | failed
deriving DecidableEq

/-- The Telegram platform as an oracle for one `update_message` invocation:
what an edit attempt would report, the message id `send_message` assigns,
and whether pinning succeeds. -/
structure PlatformBehavior where
  edit : EditOutcome
  sendId : Int
  pin : PinOutcome

/-- The Telegram calls `BotManager.update_message` can issue.
`deleteMessage`/`unpinChatMessage` exist in the Bot API but are never
called by this code. -/
inductive PlatformCall where
  | editMessageText (chat mid : Int)
  | sendMessage (chat : Int)
  | pinChatMessage (chat mid : Int)
  | deleteMessage (chat mid : Int)
  | unpinChatMessage (chat mid : Int)
deriving DecidableEq

/-- `pinned` as recorded after the pin attempt of `update_message`. -/
def pinnedOf : PinOutcome → Bool
  | .success => true
  | .failed => false

namespace BotManager

/-- Lines 116–134 of `main.py`: send the digest as a new message, attempt
to pin it (failure is caught and logged), persist the new tracked row with
the resulting pinned flag. -/
def send_phase (pb : PlatformBehavior) (rows : List TrackedMsg)
    (chat : Int) (now : Nat) : List TrackedMsg × List PlatformCall :=
  (Database.add_tracked_message rows chat pb.sendId (pinnedOf pb.pin) now,
   [.sendMessage chat, .pinChatMessage chat pb.sendId])

/-- `BotManager.update_message`: one lifecycle transition.  Returns the
`tracked_messages` rows after the invocation and the platform calls issued,
in order.  The `.failed` edit case is the generic `except Exception` arm:
the row is deleted and control falls through to the fresh send. -/
def update_message (pb : PlatformBehavior) (rows : List TrackedMsg)
    (chat : Int) (now : Nat) : List TrackedMsg × List PlatformCall :=
  match Database.get_latest_tracked_message rows chat with
  | some latest =>
    if now - latest.create_time > OLD_MESSAGE_CUTOFF then
      send_phase pb (Database.delete_message rows chat latest.message_id)
        chat now
    else
      match pb.edit with
      | .success =>
        (Database.update_message rows chat latest.message_id now,
         [.editMessageText chat latest.message_id])
      | .identicalContent =>
        (Database.update_message rows chat latest.message_id now,
         [.editMessageText chat latest.message_id])
      | .failed =>
        let r := send_phase pb
          (Database.delete_message rows chat latest.message_id) chat now
        (r.1, .editMessageText chat latest.message_id :: r.2)
  | none => send_phase pb rows chat now

end BotManager

/-! ## crawler.py : Crawler.process_calendars, main.py : sync_chat -/

/-- What one calendar feed contributes during one sync, as an oracle over
the external collaborators: the fetch raises `ConnectionError`; or
`icalendar.Calendar.from_ical` / the recurrence expansion raises on
malformed content; or the window expansion yields a list of events. -/
inductive CalBehavior where
  | fetchError
  | parseError
  | expanded (evs : List ICalEvent)
deriving DecidableEq

/-- `Crawler.process_calendars` as consumed by an `async for`: the events
the generator yields before finishing or raising, and whether it raised.
A `ConnectionError` from the fetch is caught and logged (`continue`); a
parse failure propagates out of the generator, discarding every remaining
feed but not the events already yielded. -/
def process_calendars : List CalBehavior → List ICalEvent × Bool
  | [] => ([], false)
  | .fetchError :: rest => process_calendars rest
  | .parseError :: _ => ([], true)
  | .expanded evs :: rest =>
    let r := process_calendars rest
    (evs ++ r.1, r.2)

/-- How `BotManager.sync_chat` can fail before reaching `update_message`. -/
inductive SyncError where
  | formatAbort
  | trackError (e : TrackError)
deriving DecidableEq

/-- The aggregation phase of `BotManager.sync_chat`: consume the generator,
tracking each yielded event (a `TypeError` from `track_event` propagates);
if the generator raised, the exception propagates out of `sync_chat` and no
digest is produced.  On success the digest is rendered from the tracked
events. -/
def sync_chat_digest (cals : List CalBehavior) :
    Except SyncError (List EventMD) :=
  match track_events (process_calendars cals).1 with
  | .error e => .error (.trackError e)
  | .ok mds =>
    if (process_calendars cals).2 then .error .formatAbort else .ok mds

/-- The events of the feeds that parse successfully, in feed order. -/
def goodEvents (cals : List CalBehavior) : List ICalEvent :=
  cals.flatMap fun b =>
    match b with
    | .expanded evs => evs
    | _ => []

/-! ## main.py : BotManager.sync_full -/

/-- `BotManager.sync_full`: `asyncio.gather` (without `return_exceptions`)
over `sync_chat` for every known chat.  When one task raises, gather
propagates that exception to its awaiter but does **not** cancel the
sibling tasks, which run to completion; and every database table is keyed
by `chat_id`, so each `sync_chat` reads and writes only its own chat's
partition of the store.  The model therefore carries the store as a
function from chat id to that chat's state, runs every chat's sync step on
its own partition, and records each chat's outcome. -/
def sync_full {ChatSt : Type} {Err : Type}
    (step : Int → ChatSt → Except Err ChatSt) :
    List Int → (Int → ChatSt) → (Int → ChatSt) × List (Int × Option Err)
  | [], db => (db, [])
  | c :: cs, db =>
    match step c (db c) with
    | .ok st =>
      let r := sync_full step cs (fun x => if x = c then st else db x)
      (r.1, (c, none) :: r.2)
    | .error e =>
      let r := sync_full step cs db
      (r.1, (c, some e) :: r.2)

/-! ## main.py : periodic -/

/-- The timing of `periodic(interval, fn)`: each loop iteration awaits
`asyncio.gather(fn(...), asyncio.sleep(interval))`, starting both at the
iteration's start and finishing when both are done.  With `dur n` the
running time of the `n`-th `sync_all`, the `n`-th cycle therefore starts
at `cycle_start n` and the next one `max (dur n) interval` later. -/
def cycle_start (interval : Nat) (dur : Nat → Nat) : Nat → Nat
  | 0 => 0
  | n + 1 => cycle_start interval dur n + max (dur n) interval

/-- The completion instant of the `n`-th `sync_all` call. -/
def cycle_end (interval : Nat) (dur : Nat → Nat) (n : Nat) : Nat :=
  cycle_start interval dur n + dur n

/-! ## Supporting lemmas : Database.get_latest_tracked_message -/

/-- Scan step reduction: matching row, empty accumulator. -/
theorem latestStep_none_matching {chat : Int} {r : TrackedMsg}
    (hc : r.chat_id = chat) :
    Database.latestStep chat none r = some r := by
  unfold Database.latestStep
  simp [hc]

/-- Scan step reduction: matching, strictly newer row replaces. -/
theorem latestStep_newer {chat : Int} {a r : TrackedMsg}
    (hc : r.chat_id = chat) (hlt : a.create_time < r.create_time) :
    Database.latestStep chat (some a) r = some r := by
  unfold Database.latestStep
  simp [hc, hlt]

/-- Scan step reduction: matching, not strictly newer row is dropped. -/
theorem latestStep_older {chat : Int} {a r : TrackedMsg}
    (hc : r.chat_id = chat) (hge : ¬ a.create_time < r.create_time) :
    Database.latestStep chat (some a) r = some a := by
  unfold Database.latestStep
  simp [hc, hge]

/-- Scan step reduction: a row of another chat is skipped. -/
theorem latestStep_skip {chat : Int} {acc : Option TrackedMsg}
    {r : TrackedMsg} (hc : ¬ r.chat_id = chat) :
    Database.latestStep chat acc r = acc := by
  unfold Database.latestStep
  simp [hc]

/-- A scan step either installs the current row or keeps the accumulator. -/
theorem latestStep_eq_or (chat : Int) (acc : Option TrackedMsg)
    (r : TrackedMsg) :
    Database.latestStep chat acc r = some r ∨
      Database.latestStep chat acc r = acc := by
  by_cases hc : r.chat_id = chat
  · match acc with
    | none => exact Or.inl (latestStep_none_matching hc)
    | some a =>
      by_cases hlt : a.create_time < r.create_time
      · exact Or.inl (latestStep_newer hc hlt)
      · exact Or.inr (latestStep_older hc hlt)
  · exact Or.inr (latestStep_skip hc)

/-- A scan step only produces the accumulator or a matching current row. -/
theorem latestStep_some {chat : Int} {acc : Option TrackedMsg}
    {r s : TrackedMsg} (h : Database.latestStep chat acc r = some s) :
    acc = some s ∨ (s = r ∧ r.chat_id = chat) := by
  by_cases hc : r.chat_id = chat
  · match acc with
    | none =>
      rw [latestStep_none_matching hc] at h
      cases h
      exact Or.inr ⟨rfl, hc⟩
    | some a =>
      by_cases hlt : a.create_time < r.create_time
      · rw [latestStep_newer hc hlt] at h
        cases h
        exact Or.inr ⟨rfl, hc⟩
      · rw [latestStep_older hc hlt] at h
        exact Or.inl h
  · rw [latestStep_skip hc] at h
    exact Or.inl h

/-- If a scan step replaces the accumulator, the old row is not newer. -/
theorem latestStep_replace {chat : Int} {a r : TrackedMsg}
    (h : Database.latestStep chat (some a) r = some r) :
    a.create_time ≤ r.create_time := by
  by_cases hc : r.chat_id = chat
  · by_cases hlt : a.create_time < r.create_time
    · exact Nat.le_of_lt hlt
    · rw [latestStep_older hc hlt] at h
      cases h
      exact Nat.le_refl _
  · rw [latestStep_skip hc] at h
    cases h
    exact Nat.le_refl _

/-- The result of a scan step dominates a matching current row. -/
theorem latestStep_dominates {chat : Int} {acc : Option TrackedMsg}
    {r s : TrackedMsg} (hc : r.chat_id = chat)
    (h : Database.latestStep chat acc r = some s) :
    r.create_time ≤ s.create_time := by
  match acc with
  | none =>
    rw [latestStep_none_matching hc] at h
    cases h
    exact Nat.le_refl _
  | some a =>
    by_cases hlt : a.create_time < r.create_time
    · rw [latestStep_newer hc hlt] at h
      cases h
      exact Nat.le_refl _
    · rw [latestStep_older hc hlt] at h
      cases h
      exact Nat.le_of_not_lt hlt

/-- Scan invariant of the `get_latest_tracked_message` fold: a produced row
either is the accumulator or is one of the scanned chat rows; it dominates
the accumulator and every scanned chat row in `create_time`. -/
theorem latest_fold_spec (chat : Int) (rows : List TrackedMsg) :
    ∀ acc m, rows.foldl (Database.latestStep chat) acc = some m →
      (acc = some m ∨ (m ∈ rows ∧ m.chat_id = chat))
      ∧ (∀ a, acc = some a → a.create_time ≤ m.create_time)
      ∧ (∀ r ∈ rows, r.chat_id = chat → r.create_time ≤ m.create_time) := by
  induction rows with
  | nil =>
    intro acc m h
    simp only [List.foldl_nil] at h
    refine ⟨Or.inl h, fun a ha => ?_, by simp⟩
    rw [ha] at h
    cases h
    exact Nat.le_refl _
  | cons r rows ih =>
    intro acc m h
    simp only [List.foldl_cons] at h
    obtain ⟨h1, h2, h3⟩ := ih _ m h
    refine ⟨?_, ?_, ?_⟩
    · rcases h1 with h1 | h1
      · rcases latestStep_some h1 with ha | ⟨rfl, hc⟩
        · exact Or.inl ha
        · exact Or.inr ⟨List.mem_cons_self .., hc⟩
      · exact Or.inr ⟨List.mem_cons_of_mem _ h1.1, h1.2⟩
    · intro a ha
      rcases latestStep_eq_or chat acc r with hs | hs
      · have hs' := hs
        rw [ha] at hs'
        exact Nat.le_trans (latestStep_replace hs') (h2 r hs)
      · exact h2 a (by rw [hs, ha])
    · intro x hx hxc
      rcases List.mem_cons.mp hx with rfl | hx
      · rcases latestStep_eq_or chat acc x with hs | hs
        · exact Nat.le_trans (latestStep_dominates hxc hs) (h2 x hs)
        · match hacc : acc with
          | none =>
            rw [latestStep_none_matching hxc] at hs
            cases hs
          | some a =>
            exact Nat.le_trans (latestStep_dominates hxc hs) (h2 a hs)
      · exact h3 x hx hxc

/-- A latest tracked message is one of the chat's rows. -/
theorem get_latest_mem {rows : List TrackedMsg} {chat : Int} {m : TrackedMsg}
    (h : Database.get_latest_tracked_message rows chat = some m) :
    m ∈ rows ∧ m.chat_id = chat := by
  rcases (latest_fold_spec chat rows none m h).1 with h1 | h1
  · cases h1
  · exact h1

/-- A latest tracked message has maximal `create_time` among the chat's
rows. -/
theorem get_latest_max {rows : List TrackedMsg} {chat : Int} {m : TrackedMsg}
    (h : Database.get_latest_tracked_message rows chat = some m) :
    ∀ r ∈ rows, r.chat_id = chat → r.create_time ≤ m.create_time :=
  (latest_fold_spec chat rows none m h).2.2

/-- Appending a chat row that strictly dominates every existing chat row
makes it the latest tracked message. -/
theorem get_latest_append_strict (rows : List TrackedMsg) (chat : Int)
    (x : TrackedMsg) (hx : x.chat_id = chat)
    (hdom : ∀ r ∈ rows, r.chat_id = chat → r.create_time < x.create_time) :
    Database.get_latest_tracked_message (rows ++ [x]) chat = some x := by
  unfold Database.get_latest_tracked_message
  rw [List.foldl_append]
  simp only [List.foldl_cons, List.foldl_nil]
  match hacc : rows.foldl (Database.latestStep chat) none with
  | none => exact latestStep_none_matching hx
  | some m =>
    obtain ⟨hm, hmc⟩ := get_latest_mem hacc
    exact latestStep_newer hx (hdom m hm hmc)

/-- A scan step commutes with any row map preserving `chat_id` and
`create_time` (the scan only reads those two fields). -/
theorem latestStep_map (chat : Int) (f : TrackedMsg → TrackedMsg)
    (hchat : ∀ r, (f r).chat_id = r.chat_id)
    (hct : ∀ r, (f r).create_time = r.create_time)
    (acc : Option TrackedMsg) (r : TrackedMsg) :
    Database.latestStep chat (acc.map f) (f r) =
      (Database.latestStep chat acc r).map f := by
  match acc with
  | none =>
    simp only [Option.map_none']
    by_cases hc : r.chat_id = chat
    · have hcf : (f r).chat_id = chat := by rw [hchat]; exact hc
      rw [latestStep_none_matching hcf, latestStep_none_matching hc,
        Option.map_some']
    · have hcf : ¬ (f r).chat_id = chat := by rw [hchat]; exact hc
      rw [latestStep_skip hcf, latestStep_skip hc, Option.map_none']
  | some a =>
    simp only [Option.map_some']
    by_cases hc : r.chat_id = chat
    · have hcf : (f r).chat_id = chat := by rw [hchat]; exact hc
      by_cases hlt : a.create_time < r.create_time
      · have hltf : (f a).create_time < (f r).create_time := by
          rw [hct, hct]; exact hlt
        rw [latestStep_newer hcf hltf, latestStep_newer hc hlt,
          Option.map_some']
      · have hltf : ¬ (f a).create_time < (f r).create_time := by
          rw [hct, hct]; exact hlt
        rw [latestStep_older hcf hltf, latestStep_older hc hlt,
          Option.map_some']
    · have hcf : ¬ (f r).chat_id = chat := by rw [hchat]; exact hc
      rw [latestStep_skip hcf, latestStep_skip hc, Option.map_some']

/-- `get_latest_tracked_message` commutes with any row map preserving
`chat_id` and `create_time`. -/
theorem get_latest_map (f : TrackedMsg → TrackedMsg)
    (hchat : ∀ r, (f r).chat_id = r.chat_id)
    (hct : ∀ r, (f r).create_time = r.create_time)
    (rows : List TrackedMsg) (chat : Int) :
    Database.get_latest_tracked_message (rows.map f) chat =
      (Database.get_latest_tracked_message rows chat).map f := by
  unfold Database.get_latest_tracked_message
  have aux : ∀ acc, (rows.map f).foldl (Database.latestStep chat) (acc.map f)
      = (rows.foldl (Database.latestStep chat) acc).map f := by
    induction rows with
    | nil => intro acc; rfl
    | cons r rows ih =>
      intro acc
      simp only [List.map_cons, List.foldl_cons]
      rw [latestStep_map chat f hchat hct acc r]
      exact ih _
  exact aux none

/-! ## Claim theorems : message lifecycle -/

/-- **C5.** When the persisted latest tracked message is older than 7 days,
`BotManager.update_message` deletes that row at the store level only — the
platform calls of the invocation are exactly a fresh `send_message` followed
by a `pin_chat_message` attempt, with no platform deletion — persists a new
tracked row, and (the platform assigning a message id not already tracked
for the chat) the latest tracked message afterwards carries the new id,
which differs from the evicted one. -/
theorem stale_message_evicted_and_resent (pb : PlatformBehavior)
    (rows : List TrackedMsg) (chat : Int) (now : Nat) (old : TrackedMsg)
    (hlatest : Database.get_latest_tracked_message rows chat = some old)
    (hage : now - old.create_time > OLD_MESSAGE_CUTOFF)
    (hfresh : ∀ r ∈ rows, ¬(r.chat_id = chat ∧ r.message_id = pb.sendId)) :
    (BotManager.update_message pb rows chat now).2 =
      [.sendMessage chat, .pinChatMessage chat pb.sendId]
    ∧ (∀ r ∈ (BotManager.update_message pb rows chat now).1,
        ¬(r.chat_id = chat ∧ r.message_id = old.message_id))
    ∧ Database.get_latest_tracked_message
        (BotManager.update_message pb rows chat now).1 chat =
      some { chat_id := chat, message_id := pb.sendId,
             pinned := pinnedOf pb.pin, create_time := now,
             update_time := now }
    ∧ pb.sendId ≠ old.message_id := by
  obtain ⟨hmem, hchat⟩ := get_latest_mem hlatest
  have hmidne : pb.sendId ≠ old.message_id := fun he =>
    hfresh old hmem ⟨hchat, he.symm⟩
  have hnow : old.create_time < now := by
    have hpos : 0 < OLD_MESSAGE_CUTOFF := by
      unfold OLD_MESSAGE_CUTOFF secondsPerDay; omega
    omega
  have hany : (Database.delete_message rows chat old.message_id).any
      (fun r => r.chat_id == chat && r.message_id == pb.sendId) = false := by
    rw [List.any_eq_false]
    intro r hr
    have hrmem : r ∈ rows := (List.mem_filter.mp hr).1
    intro hp
    rw [Bool.and_eq_true, beq_iff_eq, beq_iff_eq] at hp
    exact hfresh r hrmem hp
  have key : BotManager.update_message pb rows chat now =
      (Database.delete_message rows chat old.message_id ++
        [{ chat_id := chat, message_id := pb.sendId,
           pinned := pinnedOf pb.pin, create_time := now,
           update_time := now }],
       [.sendMessage chat, .pinChatMessage chat pb.sendId]) := by
    unfold BotManager.update_message
    rw [hlatest]
    simp only [if_pos hage]
    unfold BotManager.send_phase Database.add_tracked_message
    rw [hany]
    simp
  refine ⟨by rw [key], ?_, ?_, hmidne⟩
  · rw [key]
    intro r hr
    rcases List.mem_append.mp hr with hr | hr
    · have := (List.mem_filter.mp hr).2
      simp only [Bool.not_eq_eq_eq_not, Bool.not_true, Bool.and_eq_false_iff] at this
      intro ⟨hc, hm⟩
      rcases this with h | h <;> simp [hc, hm] at h
    · rcases List.mem_singleton.mp hr with rfl
      exact fun hcm => hmidne (by simpa using hcm.2)
  · rw [key]
    apply get_latest_append_strict
    · rfl
    · intro r hr hrc
      have hrmem : r ∈ rows := (List.mem_filter.mp hr).1
      exact Nat.lt_of_le_of_lt (get_latest_max hlatest r hrmem hrc) hnow

/-- Witness for `stale_message_evicted_and_resent` at a concrete store. -/
theorem stale_message_evicted_and_resent_witness :
    (BotManager.update_message ⟨.success, 50, .failed⟩
      [⟨7, 40, true, 1000, 1000⟩] 7 (1000 + 7 * 86400 + 1)).2 =
      [.sendMessage 7, .pinChatMessage 7 50]
    ∧ Database.get_latest_tracked_message
        (BotManager.update_message ⟨.success, 50, .failed⟩
          [⟨7, 40, true, 1000, 1000⟩] 7 (1000 + 7 * 86400 + 1)).1 7 =
      some ⟨7, 50, false, 1000 + 7 * 86400 + 1, 1000 + 7 * 86400 + 1⟩ := by
  have h := stale_message_evicted_and_resent ⟨.success, 50, .failed⟩
    [⟨7, 40, true, 1000, 1000⟩] 7 (1000 + 7 * 86400 + 1)
    ⟨7, 40, true, 1000, 1000⟩ (by decide) (by decide) (by decide)
  exact ⟨h.1, h.2.2.1⟩

/-- **C6.** When the latest tracked message is at most 7 days old and the
platform reports the edited content as identical, the edit is treated as a
success: the only platform call is the edit attempt (no resend, no
deletion), and the latest tracked message afterwards is the same row with
the same message id and its `update_time` refreshed to the current time. -/
theorem identical_edit_treated_as_success (pb : PlatformBehavior)
    (rows : List TrackedMsg) (chat : Int) (now : Nat) (old : TrackedMsg)
    (hlatest : Database.get_latest_tracked_message rows chat = some old)
    (hage : ¬ now - old.create_time > OLD_MESSAGE_CUTOFF)
    (hedit : pb.edit = .identicalContent) :
    (BotManager.update_message pb rows chat now).2 =
      [.editMessageText chat old.message_id]
    ∧ Database.get_latest_tracked_message
        (BotManager.update_message pb rows chat now).1 chat =
      some { old with update_time := now } := by
  obtain ⟨hmem, hchat⟩ := get_latest_mem hlatest
  have key : BotManager.update_message pb rows chat now =
      (Database.update_message rows chat old.message_id now,
       [.editMessageText chat old.message_id]) := by
    unfold BotManager.update_message
    rw [hlatest]
    simp only [if_neg hage]
    rw [hedit]
  refine ⟨by rw [key], ?_⟩
  rw [key]
  unfold Database.update_message
  rw [get_latest_map _ (fun r => by split <;> rfl)
    (fun r => by split <;> rfl) rows chat, hlatest]
  have : (if old.chat_id == chat && old.message_id == old.message_id
      then { old with update_time := now } else old) =
      { old with update_time := now } := by
    rw [if_pos]
    rw [Bool.and_eq_true, beq_iff_eq, beq_iff_eq]
    exact ⟨hchat, rfl⟩
  simpa using this

/-- Witness for `identical_edit_treated_as_success` at a concrete store. -/
theorem identical_edit_treated_as_success_witness :
    (BotManager.update_message ⟨.identicalContent, 50, .success⟩
      [⟨7, 40, true, 1000, 1000⟩] 7 2000).2 = [.editMessageText 7 40]
    ∧ Database.get_latest_tracked_message
        (BotManager.update_message ⟨.identicalContent, 50, .success⟩
          [⟨7, 40, true, 1000, 1000⟩] 7 2000).1 7 =
      some ⟨7, 40, true, 1000, 2000⟩ := by
  have h := identical_edit_treated_as_success ⟨.identicalContent, 50, .success⟩
    [⟨7, 40, true, 1000, 1000⟩] 7 2000 ⟨7, 40, true, 1000, 1000⟩
    (by decide) (by decide) rfl
  exact ⟨h.1, h.2⟩

/-- **C7.** With no active tracked message, `update_message` sends the
digest as a new message and attempts to pin it; whether or not the pin
succeeds the invocation returns normally with exactly those two platform
calls, and the persisted new row records `pinned = true` exactly when the
pin succeeded (`pinned = false` when it failed, with the failure only
logged). -/
theorem fresh_send_pin_best_effort (pb : PlatformBehavior)
    (rows : List TrackedMsg) (chat : Int) (now : Nat)
    (hnone : Database.get_latest_tracked_message rows chat = none)
    (hfresh : ∀ r ∈ rows, ¬(r.chat_id = chat ∧ r.message_id = pb.sendId)) :
    BotManager.update_message pb rows chat now =
      (rows ++ [{ chat_id := chat, message_id := pb.sendId,
                  pinned := pinnedOf pb.pin, create_time := now,
                  update_time := now }],
       [.sendMessage chat, .pinChatMessage chat pb.sendId])
    ∧ (pinnedOf pb.pin = true ↔ pb.pin = PinOutcome.success) := by
  constructor
  · unfold BotManager.update_message
    rw [hnone]
    unfold BotManager.send_phase Database.add_tracked_message
    rw [show rows.any
        (fun r => r.chat_id == chat && r.message_id == pb.sendId) = false by
      rw [List.any_eq_false]
      intro r hr hp
      rw [Bool.and_eq_true, beq_iff_eq, beq_iff_eq] at hp
      exact hfresh r hr hp]
    simp
  · cases hp : pb.pin <;> simp [pinnedOf]

/-- Witness for `fresh_send_pin_best_effort`: pin success records
`pinned = true`; pin failure records `pinned = false`. -/
theorem fresh_send_pin_best_effort_witness :
    BotManager.update_message ⟨.success, 50, .success⟩ [] 7 2000 =
      ([⟨7, 50, true, 2000, 2000⟩],
       [.sendMessage 7, .pinChatMessage 7 50])
    ∧ BotManager.update_message ⟨.success, 60, .failed⟩ [] 8 3000 =
      ([⟨8, 60, false, 3000, 3000⟩],
       [.sendMessage 8, .pinChatMessage 8 60]) :=
  ⟨(fresh_send_pin_best_effort ⟨.success, 50, .success⟩ [] 7 2000
      rfl (by decide)).1,
   (fresh_send_pin_best_effort ⟨.success, 60, .failed⟩ [] 8 3000
      rfl (by decide)).1⟩

/-- Two rows have different `(chat_id, message_id)` keys. -/
def keyDiffers (a b : TrackedMsg) : Prop :=
  ¬(a.chat_id = b.chat_id ∧ a.message_id = b.message_id)

/-- **C10.** `Database.add_tracked_message` is a no-op when a row with the
same `(chat_id, message_id)` key already exists (the existing row — its
pinned flag and both timestamps — is untouched and nothing is raised), and
every insertion preserves the `unique(chat_id, message_id)` invariant. -/
theorem add_tracked_message_ignores_duplicates (rows : List TrackedMsg)
    (chat mid : Int) (pinned : Bool) (now : Nat) :
    ((∃ r ∈ rows, r.chat_id = chat ∧ r.message_id = mid) →
      Database.add_tracked_message rows chat mid pinned now = rows)
    ∧ (rows.Pairwise keyDiffers →
      (Database.add_tracked_message rows chat mid pinned now).Pairwise
        keyDiffers) := by
  constructor
  · intro ⟨r, hr, hc, hm⟩
    unfold Database.add_tracked_message
    rw [if_pos]
    rw [List.any_eq_true]
    exact ⟨r, hr, by rw [Bool.and_eq_true, beq_iff_eq, beq_iff_eq]; exact ⟨hc, hm⟩⟩
  · intro hpw
    unfold Database.add_tracked_message
    by_cases hany : rows.any
        (fun r => r.chat_id == chat && r.message_id == mid) = true
    · rw [if_pos hany]; exact hpw
    · rw [if_neg hany]
      rw [List.pairwise_append]
      refine ⟨hpw, List.pairwise_singleton .., ?_⟩
      intro a ha b hb
      rcases List.mem_singleton.mp hb with rfl
      rw [Bool.not_eq_true, List.any_eq_false] at hany
      have := hany a ha
      intro ⟨hc, hm⟩
      exact this (by rw [Bool.and_eq_true, beq_iff_eq, beq_iff_eq]; exact ⟨hc, hm⟩)

/-- Witness for `add_tracked_message_ignores_duplicates`: a duplicate
insert leaves the row (including its pinned flag and timestamps)
unchanged, and a fresh insert keeps the keys unique. -/
theorem add_tracked_message_ignores_duplicates_witness :
    Database.add_tracked_message [⟨7, 40, true, 1000, 1500⟩] 7 40 false 9999 =
      [⟨7, 40, true, 1000, 1500⟩]
    ∧ (Database.add_tracked_message [⟨7, 40, true, 1000, 1500⟩] 7 41 false
        9999).Pairwise keyDiffers :=
  ⟨(add_tracked_message_ignores_duplicates [⟨7, 40, true, 1000, 1500⟩]
      7 40 false 9999).1 ⟨⟨7, 40, true, 1000, 1500⟩, by decide, rfl, rfl⟩,
   (add_tracked_message_ignores_duplicates [⟨7, 40, true, 1000, 1500⟩]
      7 41 false 9999).2 (by unfold keyDiffers; decide)⟩

/-! ## Claim theorems : the periodic driver (C8) -/

/-- **C8, counterexample.** The claim says the next `sync_all` starts one
interval after the *completion* of the previous one.  With interval 10 and
a sync taking 3 units, cycle 1 starts at time 10 (interval measured from
the previous cycle's *start*, the sleep running concurrently with the
sync), not at 3 + 10 = 13. -/
theorem periodic_not_anchored_on_completion :
    cycle_start 10 (fun _ => 3) 1 ≠ cycle_end 10 (fun _ => 3) 0 + 10 := by
  decide

/-- **C8, amended.** Each loop iteration of `periodic` awaits the
`sync_all` call and the interval sleep concurrently, so the next cycle
starts at the later of the previous cycle's completion and one interval
after the previous cycle's *start*; in particular successive full sync
cycles never overlap. -/
theorem periodic_cycle_timing (interval : Nat) (dur : Nat → Nat) (n : Nat) :
    cycle_start interval dur (n + 1) =
      max (cycle_end interval dur n) (cycle_start interval dur n + interval)
    ∧ cycle_end interval dur n ≤ cycle_start interval dur (n + 1) := by
  have h : cycle_start interval dur (n + 1) =
      cycle_start interval dur n + max (dur n) interval := rfl
  unfold cycle_end
  constructor
  · rw [h]; omega
  · rw [h]; omega

/-! ## Claim theorems : sync_full isolation (C9) -/

/-- **C9.** In one `sync_full` invocation, every chat whose own sync step
succeeds ends with exactly the state its step computed and is reported
successful, regardless of the outcomes (including failures) of every other
chat's sync: one conversation's failure never prevents or aborts another's
sync in the same invocation. -/
theorem sync_full_isolates_failures {ChatSt Err : Type}
    (step : Int → ChatSt → Except Err ChatSt) (chats : List Int)
    (db : Int → ChatSt) (c : Int) (st : ChatSt)
    (hnd : chats.Nodup) (hc : c ∈ chats) (hok : step c (db c) = .ok st) :
    (sync_full step chats db).1 c = st
    ∧ (c, (none : Option Err)) ∈ (sync_full step chats db).2 := by
  induction chats generalizing db with
  | nil => cases hc
  | cons c0 cs ih =>
    rcases List.mem_cons.mp hc with rfl | hcs
    · -- c is the head: its own step runs on its own partition
      unfold sync_full
      rw [hok]
      constructor
      · -- later chats never overwrite c's partition
        have frame : ∀ (db' : Int → ChatSt) (cs' : List Int), c ∉ cs' →
            (sync_full step cs' db').1 c = db' c := by
          intro db' cs' hno
          induction cs' generalizing db' with
          | nil => rfl
          | cons d ds ihd =>
            have hdc : c ≠ d := fun h => hno (h ▸ List.mem_cons_self ..)
            have hds : c ∉ ds := fun h => hno (List.mem_cons_of_mem _ h)
            unfold sync_full
            match step d (db' d) with
            | .ok st' =>
              rw [ihd _ hds]
              simp [hdc]
            | .error _ => exact ihd _ hds
        have hno : c ∉ cs := (List.nodup_cons.mp hnd).1
        rw [frame _ cs hno]
        simp
      · exact List.mem_cons_self ..
    · -- c is in the tail: the head's outcome does not touch c's partition
      have hnd' : cs.Nodup := (List.nodup_cons.mp hnd).2
      have hne : c ≠ c0 := fun h => (List.nodup_cons.mp hnd).1 (h ▸ hcs)
      unfold sync_full
      match hstep : step c0 (db c0) with
      | .ok st0 =>
        have hdb : (fun x => if x = c0 then st0 else db x) c = db c := by
          simp [hne]
        obtain ⟨h1, h2⟩ := ih (fun x => if x = c0 then st0 else db x) hnd' hcs
          (by rw [hdb]; exact hok)
        exact ⟨h1, List.mem_cons_of_mem _ h2⟩
      | .error e =>
        obtain ⟨h1, h2⟩ := ih db hnd' hcs hok
        exact ⟨h1, List.mem_cons_of_mem _ h2⟩

/-- Witness for `sync_full_isolates_failures`: chat 1's sync fails, chat 2
still completes normally in the same invocation. -/
theorem sync_full_isolates_failures_witness :
    (sync_full (fun c st => if c = 1 then .error 99 else .ok (st + 1))
      [1, 2] (fun _ => (0 : Nat))).1 2 = 1
    ∧ ((2 : Int), (none : Option Nat)) ∈
      (sync_full (fun c st => if c = 1 then .error 99 else .ok (st + 1))
        [1, 2] (fun _ => (0 : Nat))).2 :=
  sync_full_isolates_failures
    (fun c st => if c = 1 then .error 99 else .ok (st + 1))
    [1, 2] (fun _ => (0 : Nat)) 2 1 (by decide) (by decide) rfl

/-! ## Claim theorems : feed failure handling in sync_chat (C2) -/

/-- **C2, counterexample.** A conversation with a feed whose content fails
to parse followed by a healthy feed: the parse failure propagates out of
the `process_calendars` generator, so the sync raises instead of producing
a digest with the healthy feed's occurrence — a format error is *not*
isolated to its feed. -/
theorem format_error_aborts_sync :
    sync_chat_digest [CalBehavior.parseError,
      CalBehavior.expanded [{ dtstart := some ⟨.dateTime 100, none⟩,
                              dtend := some ⟨.dateTime 200, none⟩,
                              summary := "kept" }]] =
      Except.error SyncError.formatAbort := rfl

/-- With no parse failure among the feeds, the generator yields exactly the
expanded events of the healthy feeds (fetch failures skipped) and finishes
normally. -/
theorem process_calendars_no_parse_error (cals : List CalBehavior)
    (h : ∀ b ∈ cals, b ≠ CalBehavior.parseError) :
    process_calendars cals = (goodEvents cals, false) := by
  induction cals with
  | nil => rfl
  | cons b rest ih =>
    have hrest : ∀ x ∈ rest, x ≠ CalBehavior.parseError := fun x hx =>
      h x (List.mem_cons_of_mem _ hx)
    match b with
    | .fetchError =>
      show process_calendars rest = _
      rw [ih hrest]
      rfl
    | .parseError => exact absurd rfl (h _ (List.mem_cons_self ..))
    | .expanded evs =>
      show (evs ++ (process_calendars rest).1,
        (process_calendars rest).2) = _
      rw [ih hrest]
      rfl

/-- A parse failure is always reached and aborts the generator. -/
theorem process_calendars_parse_error (cals : List CalBehavior)
    (h : CalBehavior.parseError ∈ cals) :
    (process_calendars cals).2 = true := by
  induction cals with
  | nil => cases h
  | cons b rest ih =>
    match b with
    | .fetchError =>
      rcases List.mem_cons.mp h with h0 | h0
      · cases h0
      · exact ih h0
    | .parseError => rfl
    | .expanded evs =>
      rcases List.mem_cons.mp h with h0 | h0
      · cases h0
      · show (process_calendars rest).2 = true
        exact ih h0

/-- **C2, amended.** A *fetch* failure is isolated to its feed: with no
parse failure among the conversation's feeds, the remaining feeds'
occurrences (all of them, in feed order) are aggregated and the sync
completes without error.  A *format* (parse) failure, by contrast, aborts
the entire conversation sync: no digest is produced at all. -/
theorem fetch_failure_isolated_format_error_fatal (cals : List CalBehavior)
    (tracked : List EventMD) :
    ((∀ b ∈ cals, b ≠ CalBehavior.parseError) →
      track_events (goodEvents cals) = .ok tracked →
      sync_chat_digest cals = .ok tracked)
    ∧ (CalBehavior.parseError ∈ cals →
      (sync_chat_digest cals).isOk = false) := by
  constructor
  · intro hnp htrack
    unfold sync_chat_digest
    rw [process_calendars_no_parse_error cals hnp]
    show (match track_events (goodEvents cals) with
      | .error e => Except.error (SyncError.trackError e)
      | .ok mds =>
        if false = true then Except.error SyncError.formatAbort
        else Except.ok mds) = Except.ok tracked
    rw [htrack]
    rfl
  · intro hp
    have h2 := process_calendars_parse_error cals hp
    unfold sync_chat_digest
    rw [h2]
    cases track_events (process_calendars cals).1 with
    | error e => rfl
    | ok mds => rfl

/-- Witness for `fetch_failure_isolated_format_error_fatal`: a conversation
with a failing-fetch feed and a healthy feed still digests the healthy
feed's occurrence without error; one with a parse-failing feed errors. -/
theorem fetch_failure_isolated_format_error_fatal_witness :
    sync_chat_digest [CalBehavior.fetchError,
      CalBehavior.expanded [{ dtstart := some ⟨.dateTime 100, none⟩,
                              dtend := some ⟨.dateTime 200, none⟩,
                              summary := "kept" }]] =
      .ok [{ start := 100, end_ := 200, title := "kept", allDay := false }]
    ∧ (sync_chat_digest [CalBehavior.parseError]).isOk = false :=
  ⟨(fetch_failure_isolated_format_error_fatal
      [CalBehavior.fetchError,
        CalBehavior.expanded [{ dtstart := some ⟨.dateTime 100, none⟩,
                                dtend := some ⟨.dateTime 200, none⟩,
                                summary := "kept" }]]
      [{ start := 100, end_ := 200, title := "kept", allDay := false }]).1
    (by decide) rfl,
   (fetch_failure_isolated_format_error_fatal [CalBehavior.parseError]
      []).2 (List.mem_singleton.mpr rfl)⟩

/-! ## Claim theorems : date-only events (C3) -/

/-- **C3, counterexample.** A date-only event (`DTSTART;VALUE=DATE`) with
*no end at all* does not produce an occurrence: `track_event` checks
`isinstance(dtend, vDDDTypes)` before the date branch and raises
`TypeError`, so the claimed `end = start + 1 day`, `allDay = true`
occurrence is never built. -/
theorem date_only_without_end_raises :
    track_event { dtstart := some ⟨.dateOnly 20000, some "DATE"⟩,
                  dtend := none, summary := "Holiday" } =
      Except.error TrackError.dtendNotVDD
    ∧ (track_event { dtstart := some ⟨.dateOnly 20000, some "DATE"⟩,
                     dtend := none, summary := "Holiday" }).isOk = false :=
  ⟨rfl, rfl⟩

/-- **C3, amended.** For an event whose start is marked as a pure calendar
date (`VALUE=DATE`), with an end *property present* whose value is not
convertible to an instant (a duration or a time-of-day rather than a date
or datetime), the produced occurrence is all-day with
`end = start + 1 day`; an event with no end property at all instead raises
a `TypeError`. -/
theorem date_only_fallback_end (d : Nat) (title : String) (de : VDDTypes)
    (hde : vdd_to_datetime de.dt = none) :
    track_event { dtstart := some ⟨.dateOnly d, some "DATE"⟩,
                  dtend := some de, summary := title } =
      .ok { start := d * secondsPerDay,
            end_ := d * secondsPerDay + secondsPerDay,
            title := title, allDay := true } := by
  obtain ⟨dedt, deparam⟩ := de
  match dedt with
  | .dateTime t => simp [vdd_to_datetime] at hde
  | .dateOnly d0 => simp [vdd_to_datetime] at hde
  | .duration s0 => rfl
  | .timeOfDay s0 => rfl

/-- Witness for `date_only_fallback_end` at a concrete duration-valued
end. -/
theorem date_only_fallback_end_witness :
    vdd_to_datetime (VDDValue.duration 3600) = none
    ∧ track_event { dtstart := some ⟨.dateOnly 3, some "DATE"⟩,
                    dtend := some ⟨.duration 3600, none⟩, summary := "H" } =
      .ok { start := 3 * secondsPerDay,
            end_ := 3 * secondsPerDay + secondsPerDay,
            title := "H", allDay := true } :=
  ⟨rfl, date_only_fallback_end 3 "H" ⟨.duration 3600, none⟩ rfl⟩

/-! ## Supporting lemmas : grouping in generate_markdown -/

instance : IsTotal EventMD (fun a b => a.start ≤ b.start) :=
  ⟨fun a b => Nat.le_total a.start b.start⟩

instance : IsTrans EventMD (fun a b => a.start ≤ b.start) :=
  ⟨fun _ _ _ => Nat.le_trans⟩

instance : IsTotal (Nat × List EventMD) (fun a b => a.1 ≤ b.1) :=
  ⟨fun a b => Nat.le_total a.1 b.1⟩

instance : IsTrans (Nat × List EventMD) (fun a b => a.1 ≤ b.1) :=
  ⟨fun _ _ _ => Nat.le_trans⟩

/-- The entry stored for key `d` in an association list (`[]` if absent). -/
def assocEntry (m : List (Nat × List EventMD)) (d : Nat) : List EventMD :=
  match m.find? (fun p => p.1 == d) with
  | some p => p.2
  | none => []

/-- Reduction of `assocEntry` at a matching head. -/
theorem assocEntry_cons_pos {d0 d' : Nat} {es0 : List EventMD}
    {rest : List (Nat × List EventMD)} (h : d0 = d') :
    assocEntry ((d0, es0) :: rest) d' = es0 := by
  unfold assocEntry
  rw [List.find?_cons_of_pos _ (by simpa using h)]

/-- Reduction of `assocEntry` at a non-matching head. -/
theorem assocEntry_cons_neg {d0 d' : Nat} {es0 : List EventMD}
    {rest : List (Nat × List EventMD)} (h : ¬ d0 = d') :
    assocEntry ((d0, es0) :: rest) d' = assocEntry rest d' := by
  unfold assocEntry
  rw [List.find?_cons_of_neg _ (by simpa using h)]

/-- Inserting an event into `date_maps` appends it to its date's entry and
touches no other entry. -/
theorem assocEntry_insert (d : Nat) (e : EventMD)
    (m : List (Nat × List EventMD)) (d' : Nat) :
    assocEntry (dateMapsInsert d e m) d' =
      if d' = d then assocEntry m d' ++ [e] else assocEntry m d' := by
  induction m with
  | nil =>
    show assocEntry [(d, [e])] d' = _
    by_cases h : d' = d
    · rw [if_pos h, assocEntry_cons_pos h.symm]
      rfl
    · rw [if_neg h, assocEntry_cons_neg (fun hdd => h hdd.symm)]
  | cons hd rest ih =>
    obtain ⟨d0, es0⟩ := hd
    show assocEntry (if d0 = d then (d0, es0 ++ [e]) :: rest
      else (d0, es0) :: dateMapsInsert d e rest) d' = _
    by_cases h0 : d0 = d
    · rw [if_pos h0]
      by_cases h' : d' = d
      · rw [if_pos h', assocEntry_cons_pos (h0.trans h'.symm),
          assocEntry_cons_pos (h0.trans h'.symm)]
      · rw [if_neg h', assocEntry_cons_neg (fun hdd => h' (hdd.symm.trans h0)),
          assocEntry_cons_neg (fun hdd => h' (hdd.symm.trans h0))]
    · rw [if_neg h0]
      by_cases h' : d' = d0
      · rw [assocEntry_cons_pos h'.symm, assocEntry_cons_pos h'.symm,
          if_neg (fun hdd : d' = d => h0 (h' ▸ hdd : d0 = d))]
      · rw [assocEntry_cons_neg (fun hdd => h' hdd.symm),
          assocEntry_cons_neg (fun hdd => h' hdd.symm), ih]

/-- Folding `date_maps` insertion over the tracked events collects, for
each date, exactly the events of that date in insertion order. -/
theorem assocEntry_fold (evs : List EventMD) (d : Nat) :
    ∀ m0, assocEntry
        (evs.foldl (fun m e => dateMapsInsert (dateOfInstant e.start) e m) m0) d
      = assocEntry m0 d ++ evs.filter (fun e => dateOfInstant e.start == d) := by
  induction evs with
  | nil => intro m0; simp
  | cons e evs ih =>
    intro m0
    simp only [List.foldl_cons, List.filter_cons]
    rw [ih, assocEntry_insert]
    by_cases h : d = dateOfInstant e.start
    · rw [if_pos h]
      rw [show (dateOfInstant e.start == d) = true by simp [h.symm]]
      simp
    · rw [if_neg h]
      rw [show (dateOfInstant e.start == d) = false by
        simp; exact fun hdd => h hdd.symm]
      rfl

/-- The entry of `buildDateMaps` for date `d` is the insertion-ordered
filter of the events of that date. -/
theorem assocEntry_buildDateMaps (evs : List EventMD) (d : Nat) :
    assocEntry (buildDateMaps evs) d =
      evs.filter (fun e => dateOfInstant e.start == d) := by
  have h := assocEntry_fold evs d []
  unfold buildDateMaps
  rw [h]
  rfl

/-- Inserting into `date_maps` adds the key at the end if new. -/
theorem keys_dateMapsInsert (d : Nat) (e : EventMD)
    (m : List (Nat × List EventMD)) :
    (dateMapsInsert d e m).map Prod.fst =
      if d ∈ m.map Prod.fst then m.map Prod.fst
      else m.map Prod.fst ++ [d] := by
  induction m with
  | nil => simp [dateMapsInsert]
  | cons hd rest ih =>
    obtain ⟨d0, es0⟩ := hd
    show (if d0 = d then (d0, es0 ++ [e]) :: rest
      else (d0, es0) :: dateMapsInsert d e rest).map Prod.fst = _
    by_cases h0 : d0 = d
    · rw [if_pos h0]
      rw [if_pos (by simp [h0])]
      simp
    · rw [if_neg h0]
      simp only [List.map_cons, ih]
      by_cases hmem : d ∈ rest.map Prod.fst
      · rw [if_pos hmem, if_pos (by simp [hmem])]
      · rw [if_neg hmem, if_neg (by
          simp only [List.map_cons, List.mem_cons]
          rintro (h | h)
          · exact h0 h.symm
          · exact hmem h)]
        simp

/-- `buildDateMaps` produces distinct date keys. -/
theorem buildDateMaps_keys_nodup (evs : List EventMD) :
    ((buildDateMaps evs).map Prod.fst).Nodup := by
  have aux : ∀ m0 : List (Nat × List EventMD), (m0.map Prod.fst).Nodup →
      ((evs.foldl (fun m e => dateMapsInsert (dateOfInstant e.start) e m)
        m0).map Prod.fst).Nodup := by
    induction evs with
    | nil => exact fun m0 h => h
    | cons e evs ih =>
      intro m0 h0
      simp only [List.foldl_cons]
      refine ih _ ?_
      rw [keys_dateMapsInsert]
      by_cases hmem : dateOfInstant e.start ∈ m0.map Prod.fst
      · rwa [if_pos hmem]
      · rw [if_neg hmem, List.nodup_append]
        exact ⟨h0, List.nodup_singleton _,
          fun a ha hb => hmem ((List.mem_singleton.mp hb) ▸ ha)⟩
  exact aux [] (by simp [List.map_nil])

/-- In an association list with distinct keys, membership determines the
result of the key lookup. -/
theorem find?_of_mem_nodup_keys {m : List (Nat × List EventMD)} {d : Nat}
    {es : List EventMD} (hnd : (m.map Prod.fst).Nodup)
    (hmem : (d, es) ∈ m) :
    m.find? (fun p => p.1 == d) = some (d, es) := by
  induction m with
  | nil => cases hmem
  | cons hd rest ih =>
    obtain ⟨d0, es0⟩ := hd
    rcases List.mem_cons.mp hmem with heq | hmem'
    · obtain ⟨rfl, rfl⟩ := Prod.mk.injEq .. ▸ heq.symm
      exact List.find?_cons_of_pos _ (by simp)
    · have hd0 : d0 ∉ rest.map Prod.fst :=
        (List.nodup_cons.mp (by simpa using hnd)).1
      have hdkey : d ∈ rest.map Prod.fst :=
        List.mem_map_of_mem Prod.fst hmem'
      have hne : ¬ d0 = d := fun h => hd0 (h ▸ hdkey)
      rw [List.find?_cons_of_neg _ (by simpa using hne)]
      exact ih (List.nodup_cons.mp (by simpa using hnd)).2 hmem'

/-- `assocEntry` is invariant under permutation when keys are distinct. -/
theorem assocEntry_perm {m m' : List (Nat × List EventMD)}
    (hnd : (m.map Prod.fst).Nodup) (hp : List.Perm m' m) (d : Nat) :
    assocEntry m' d = assocEntry m d := by
  unfold assocEntry
  cases hf : m'.find? (fun p => p.1 == d) with
  | none =>
    have hall := List.find?_eq_none.mp hf
    cases hg : m.find? (fun p => p.1 == d) with
    | none => rfl
    | some q =>
      have hqm' : q ∈ m' := hp.mem_iff.mpr (List.mem_of_find?_eq_some hg)
      exact absurd (List.find?_some hg) (hall q hqm')
  | some q =>
    have hq1 : q.1 = d := by simpa using List.find?_some hf
    have hqm : q ∈ m := hp.mem_iff.mp (List.mem_of_find?_eq_some hf)
    have hqpair : ((d, q.2) : Nat × List EventMD) ∈ m := by
      rw [← hq1]
      exact hqm
    rw [find?_of_mem_nodup_keys hnd hqpair]

/-- Stability of ordered insertion: for every start value, inserting keeps
the subsequence of entries with that start, the inserted entry (being the
originally earliest) landing in front of its equals. -/
theorem orderedInsert_filter_start (a : EventMD) (l : List EventMD)
    (v : Nat) :
    ((l.orderedInsert (fun x y => x.start ≤ y.start) a).filter
        (fun e => e.start == v)) =
      if a.start = v then a :: l.filter (fun e => e.start == v)
      else l.filter (fun e => e.start == v) := by
  induction l with
  | nil =>
    by_cases h : a.start = v <;> simp [List.orderedInsert, h]
  | cons y l ih =>
    show (if a.start ≤ y.start then a :: y :: l
      else y :: l.orderedInsert (fun x y => x.start ≤ y.start) a).filter
        (fun e => e.start == v) = _
    by_cases hle : a.start ≤ y.start
    · rw [if_pos hle]
      by_cases hav : a.start = v <;> by_cases hyv : y.start = v <;>
        simp [List.filter_cons, hav, hyv]
    · rw [if_neg hle]
      rw [List.filter_cons]
      by_cases hyv : y.start = v
      · have hav : ¬ a.start = v := fun h =>
          hle (Nat.le_of_eq (h.trans hyv.symm))
        rw [if_pos (by simpa using hyv), ih, if_neg hav, if_neg hav,
          List.filter_cons, if_pos (by simpa using hyv)]
      · rw [if_neg (by simpa using hyv), ih]
        by_cases hav : a.start = v
        · rw [if_pos hav, if_pos hav, List.filter_cons,
            if_neg (by simpa using hyv)]
        · rw [if_neg hav, if_neg hav, List.filter_cons,
            if_neg (by simpa using hyv)]

/-- Stability of the timed sort: for every start value, the entries with
that start appear in `sortTimed l` exactly as they appear in `l` —
Python's stable `sort` keeps insertion order among ties. -/
theorem sortTimed_filter_start (l : List EventMD) (v : Nat) :
    (sortTimed l).filter (fun e => e.start == v) =
      l.filter (fun e => e.start == v) := by
  induction l with
  | nil => rfl
  | cons y l ih =>
    show ((List.insertionSort _ l).orderedInsert _ y).filter _ = _
    rw [orderedInsert_filter_start]
    by_cases hyv : y.start = v
    · rw [if_pos hyv, List.filter_cons, if_pos (by simpa using hyv)]
      rw [show (List.insertionSort (fun x y => x.start ≤ y.start) l).filter
        (fun e => e.start == v) = l.filter (fun e => e.start == v) from ih]
    · rw [if_neg hyv, List.filter_cons, if_neg (by simpa using hyv)]
      exact ih

/-- The keys of the rendered date sections are those of the sorted
`date_maps`. -/
theorem mdGroups_keys (events : List EventMD) :
    (mdGroups events).map Prod.fst = (sortedDateMaps events).map Prod.fst := by
  unfold mdGroups
  rw [List.map_map]
  rfl

/-- Looking up a date section of `mdGroups` is looking it up in the sorted
`date_maps` and rendering it. -/
theorem mdGroups_find? (events : List EventMD) (d : Nat) :
    (mdGroups events).find? (fun p => p.1 == d) =
      ((sortedDateMaps events).find? (fun p => p.1 == d)).map
        (fun p => (p.1, p.2.filter (fun e => e.allDay)
          ++ sortTimed (p.2.filter (fun e => !e.allDay)))) := by
  unfold mdGroups
  rw [List.find?_map]
  rfl

/-- Master characterization: the entries `generate_markdown` renders under
date `d` are the insertion-ordered all-day events of that date followed by
the stably sorted timed events of that date. -/
theorem mdEntriesFor_eq (events : List EventMD) (d : Nat) :
    mdEntriesFor events d =
      (events.filter (fun e => dateOfInstant e.start == d)).filter
        (fun e => e.allDay)
      ++ sortTimed ((events.filter (fun e => dateOfInstant e.start == d)).filter
        (fun e => !e.allDay)) := by
  have hperm : List.Perm (sortedDateMaps events) (buildDateMaps events) :=
    List.perm_insertionSort _ _
  have hnd := buildDateMaps_keys_nodup events
  have hsorted : assocEntry (sortedDateMaps events) d =
      events.filter (fun e => dateOfInstant e.start == d) :=
    (assocEntry_perm hnd hperm d).trans (assocEntry_buildDateMaps events d)
  unfold mdEntriesFor
  rw [mdGroups_find?]
  cases hf : (sortedDateMaps events).find? (fun p => p.1 == d) with
  | none =>
    have hfe : events.filter (fun e => dateOfInstant e.start == d) = [] := by
      rw [← hsorted]
      unfold assocEntry
      rw [hf]
    rw [hfe]
    rfl
  | some q =>
    have hq2 : q.2 = events.filter (fun e => dateOfInstant e.start == d) := by
      rw [← hsorted]
      unfold assocEntry
      rw [hf]
    rw [Option.map_some']
    show q.2.filter (fun e => e.allDay)
      ++ sortTimed (q.2.filter (fun e => !e.allDay)) = _
    rw [hq2]

/-- The dates of the rendered sections are strictly ascending. -/
theorem mdGroups_dates_sorted (events : List EventMD) :
    ((mdGroups events).map Prod.fst).Pairwise (· < ·) := by
  have hsorted : List.Sorted (fun a b : Nat × List EventMD => a.1 ≤ b.1)
      (sortedDateMaps events) := List.sorted_insertionSort _ _
  have hperm : List.Perm (sortedDateMaps events) (buildDateMaps events) :=
    List.perm_insertionSort _ _
  have hnd : ((sortedDateMaps events).map Prod.fst).Nodup :=
    ((hperm.map Prod.fst).symm).nodup (buildDateMaps_keys_nodup events)
  rw [mdGroups_keys]
  have hle : ((sortedDateMaps events).map Prod.fst).Pairwise (· ≤ ·) :=
    (List.pairwise_map).mpr hsorted
  exact (hle.and hnd).imp fun h => Nat.lt_of_le_of_ne h.1 h.2

/-! ## Claim theorems : markdown ordering (C4) and dict/markdown (C1) -/

/-- **C4.** `generate_markdown` emits its date sections in strictly
ascending date order; within each date the entries are exactly the all-day
events of that date in insertion order followed by the timed events of
that date sorted by start instant — the sorted part is a permutation of
the insertion-ordered timed events with non-decreasing starts, and for
every start value the tied entries keep their insertion order. -/
theorem markdown_sections_sorted_allday_first (events : List EventMD)
    (d : Nat) (es : List EventMD) (hmem : (d, es) ∈ mdGroups events) :
    ((mdGroups events).map Prod.fst).Pairwise (· < ·)
    ∧ es = events.filter (fun e => e.allDay && dateOfInstant e.start == d)
        ++ sortTimed (events.filter
          (fun e => !e.allDay && dateOfInstant e.start == d))
    ∧ (sortTimed (events.filter
        (fun e => !e.allDay && dateOfInstant e.start == d))).Pairwise
        (fun a b => a.start ≤ b.start)
    ∧ List.Perm (sortTimed (events.filter
        (fun e => !e.allDay && dateOfInstant e.start == d)))
        (events.filter (fun e => !e.allDay && dateOfInstant e.start == d))
    ∧ ∀ v, (sortTimed (events.filter
        (fun e => !e.allDay && dateOfInstant e.start == d))).filter
          (fun e => e.start == v)
        = (events.filter
            (fun e => !e.allDay && dateOfInstant e.start == d)).filter
          (fun e => e.start == v) := by
  have hndk : ((mdGroups events).map Prod.fst).Nodup := by
    rw [mdGroups_keys]
    exact ((List.perm_insertionSort _ _).map Prod.fst).symm.nodup
      (buildDateMaps_keys_nodup events)
  have hes : es = mdEntriesFor events d := by
    have hfind := find?_of_mem_nodup_keys hndk hmem
    unfold mdEntriesFor
    rw [hfind]
  refine ⟨mdGroups_dates_sorted events, ?_, ?_, ?_, ?_⟩
  · rw [hes, mdEntriesFor_eq, List.filter_filter, List.filter_filter]
  · exact List.sorted_insertionSort _ _
  · exact List.perm_insertionSort _ _
  · intro v
    exact sortTimed_filter_start _ v

/-- Witness for `markdown_sections_sorted_allday_first`: an all-day event
accepted after two tied timed events still renders first, the tied timed
events keeping insertion order; the witness extracts the section equality
and the date ordering at a concrete tracker state. -/
theorem markdown_sections_sorted_allday_first_witness :
    ((mdGroups [⟨172805, 172900, "b", false⟩, ⟨172800, 259200, "all", true⟩,
        ⟨172805, 172950, "a", false⟩]).map Prod.fst).Pairwise (· < ·)
    ∧ [(⟨172800, 259200, "all", true⟩ : EventMD),
        ⟨172805, 172900, "b", false⟩, ⟨172805, 172950, "a", false⟩] =
      [(⟨172805, 172900, "b", false⟩ : EventMD),
        ⟨172800, 259200, "all", true⟩,
        ⟨172805, 172950, "a", false⟩].filter
          (fun e => e.allDay && dateOfInstant e.start == 2)
      ++ sortTimed ([(⟨172805, 172900, "b", false⟩ : EventMD),
        ⟨172800, 259200, "all", true⟩,
        ⟨172805, 172950, "a", false⟩].filter
          (fun e => !e.allDay && dateOfInstant e.start == 2)) := by
  have h := markdown_sections_sorted_allday_first
    [⟨172805, 172900, "b", false⟩, ⟨172800, 259200, "all", true⟩,
      ⟨172805, 172950, "a", false⟩] 2
    [⟨172800, 259200, "all", true⟩, ⟨172805, 172900, "b", false⟩,
      ⟨172805, 172950, "a", false⟩] (by decide)
  exact ⟨h.1, h.2.1⟩

/-- **C1, counterexample.** `generate_dict` does not reproduce the grouping
and ordering of `generate_markdown`: it emits the accepted events as a flat
list in insertion order.  With a day-2 timed event accepted first, a second
earlier-starting day-2 timed event, and a day-1 all-day event accepted
last, the dict's date sequence is day 2 before day 1 while the markdown
emits day 1 before day 2, and within day 2 the dict keeps insertion order
while the markdown sorts by start. -/
theorem dict_not_grouped_like_markdown :
    ((generate_dict [⟨180000, 183600, "t12", false⟩,
        ⟨176400, 180000, "t10", false⟩, ⟨86400, 172800, "all", true⟩]).map
        (fun x => dateOfInstant x.start)).dedup ≠
      (mdGroups [⟨180000, 183600, "t12", false⟩,
        ⟨176400, 180000, "t10", false⟩,
        ⟨86400, 172800, "all", true⟩]).map Prod.fst
    ∧ (generate_dict [⟨180000, 183600, "t12", false⟩,
        ⟨176400, 180000, "t10", false⟩, ⟨86400, 172800, "all", true⟩]).filter
        (fun x => dateOfInstant x.start == 2) ≠
      (mdEntriesFor [⟨180000, 183600, "t12", false⟩,
        ⟨176400, 180000, "t10", false⟩,
        ⟨86400, 172800, "all", true⟩] 2).map eventToDict := by
  constructor
  · decide
  · decide

/-- **C1, amended.** The structured and text renderings of the same tracker
agree on per-date *membership*: for every calendar date, the entries the
markdown places under that date are a permutation of the dict entries whose
start falls on that date.  (`generate_dict` emits a flat list in insertion
order, so the two renderings need not agree on date ordering or on the
ordering of entries within a date.) -/
theorem dict_markdown_agree_per_date_membership (events : List EventMD)
    (d : Nat) :
    List.Perm ((mdEntriesFor events d).map eventToDict)
      ((generate_dict events).filter
        (fun x => dateOfInstant x.start == d)) := by
  rw [mdEntriesFor_eq]
  unfold generate_dict
  rw [List.filter_map]
  show List.Perm _
    ((events.filter (fun e => dateOfInstant e.start == d)).map eventToDict)
  rw [List.map_append]
  have h1 : List.Perm
      (sortTimed ((events.filter
        (fun e => dateOfInstant e.start == d)).filter (fun e => !e.allDay)))
      ((events.filter
        (fun e => dateOfInstant e.start == d)).filter (fun e => !e.allDay)) :=
    List.perm_insertionSort _ _
  have step1 := List.Perm.append_left
    (((events.filter (fun e => dateOfInstant e.start == d)).filter
      (fun e => e.allDay)).map eventToDict)
    (h1.map eventToDict)
  have step3 := (List.filter_append_perm (fun e => e.allDay)
    (events.filter (fun e => dateOfInstant e.start == d))).map eventToDict
  exact step1.trans (by rw [← List.map_append]; exact step3)
